import Mathlib

/-!
Verification development for the ZakuroLoaderPkg UEFI boot loader
(`src/ZakuroLoaderPkg/Main.c`).

The loader's pure computations (`CalcLoadAddressRange`, `CopyLoadSegments`,
`SaveMemoryMap`, the pixel-format switch) are embedded as Lean functions over
`Nat` with explicit `% 2^64` where the C code performs 64-bit arithmetic.
The stateful control flow of `UefiMain` is embedded as an event-trace
function parameterised over the firmware environment's observable behaviour
(success or failure of each firmware call, the map keys returned by each
`GetMemoryMap`, the reported pixel format, and so on).
-/

namespace Zakuro

/-- The modulus 2^64 of UINT64 arithmetic. -/
def UINT64_MOD : Nat := 18446744073709551616

/-- MAX_UINT64 from the EDK2 headers. -/
def MAX_UINT64 : Nat := 18446744073709551615

/-- Wrapping 64-bit addition, as performed on UINT64 values in the C code. -/
def add64 (a b : Nat) : Nat := (a + b) % UINT64_MOD

/-- Wrapping 64-bit subtraction (two's complement) for operands below 2^64. -/
def sub64 (a b : Nat) : Nat := (a + UINT64_MOD - b) % UINT64_MOD

/-- The `PT_LOAD` program-header type from `elf.hpp`. -/
def PT_LOAD : Nat := 1

/-- An ELF64 program-header entry (`Elf64_Phdr` in `elf.hpp`), fields in
declaration order. All fields are machine integers modelled as `Nat`. -/
structure Phdr where
  p_type : Nat
  p_flags : Nat
  p_offset : Nat
  p_vaddr : Nat
  p_paddr : Nat
  p_filesz : Nat
  p_memsz : Nat
  p_align : Nat
deriving DecidableEq, Repr

/-- One iteration of the loop body of `CalcLoadAddressRange` (Main.c lines
168-172): skip entries that are not `PT_LOAD`, otherwise fold the entry's
virtual address into the running minimum and its wrapped
`p_vaddr + p_memsz` into the running maximum. -/
def calcStep (acc : Nat × Nat) (p : Phdr) : Nat × Nat :=
  if p.p_type ≠ PT_LOAD then acc
  else (min acc.1 p.p_vaddr, max acc.2 (add64 p.p_vaddr p.p_memsz))

/-- The function `CalcLoadAddressRange` (Main.c lines 164-173): `*first` starts at
`MAX_UINT64`, `*last` at `0`, and the program-header table is scanned in
order. Returns the pair `(*first, *last)`. -/
def CalcLoadAddressRange (ps : List Phdr) : Nat × Nat :=
  ps.foldl calcStep (MAX_UINT64, 0)

/-! ### Fold lemmas for `CalcLoadAddressRange` -/

theorem calcStep_skip (acc : Nat × Nat) (p : Phdr) (h : p.p_type ≠ PT_LOAD) :
    calcStep acc p = acc := by
  unfold calcStep
  exact if_pos h

theorem calcStep_load (acc : Nat × Nat) (p : Phdr) (h : p.p_type = PT_LOAD) :
    calcStep acc p = (min acc.1 p.p_vaddr, max acc.2 (add64 p.p_vaddr p.p_memsz)) := by
  unfold calcStep
  exact if_neg (by simp [h])

theorem calc_foldl_fst_le (ps : List Phdr) (acc : Nat × Nat) :
    (ps.foldl calcStep acc).1 ≤ acc.1 ∧
      ∀ p ∈ ps, p.p_type = PT_LOAD → (ps.foldl calcStep acc).1 ≤ p.p_vaddr := by
  induction ps generalizing acc with
  | nil => exact ⟨le_refl _, by simp⟩
  | cons q rest ih =>
    simp only [List.foldl_cons]
    obtain ⟨h1, h2⟩ := ih (calcStep acc q)
    have hstep : (calcStep acc q).1 ≤ acc.1 := by
      by_cases hq : q.p_type = PT_LOAD
      · rw [calcStep_load acc q hq]; exact min_le_left _ _
      · rw [calcStep_skip acc q hq]
    refine ⟨le_trans h1 hstep, ?_⟩
    intro p hp hload
    rcases List.mem_cons.mp hp with hp | hp
    · subst hp
      refine le_trans h1 ?_
      rw [calcStep_load acc p hload]
      exact min_le_right _ _
    · exact h2 p hp hload

theorem calc_foldl_fst_mem (ps : List Phdr) (acc : Nat × Nat) :
    (ps.foldl calcStep acc).1 = acc.1 ∨
      ∃ p ∈ ps, p.p_type = PT_LOAD ∧ (ps.foldl calcStep acc).1 = p.p_vaddr := by
  induction ps generalizing acc with
  | nil => exact Or.inl rfl
  | cons q rest ih =>
    simp only [List.foldl_cons]
    by_cases hq : q.p_type = PT_LOAD
    · rw [calcStep_load acc q hq]
      rcases ih (min acc.1 q.p_vaddr, max acc.2 (add64 q.p_vaddr q.p_memsz)) with h | ⟨p, hp, hload, hv⟩
      · rcases min_cases acc.1 q.p_vaddr with ⟨hmin, _⟩ | ⟨hmin, _⟩
        · exact Or.inl (by rw [h]; exact hmin)
        · exact Or.inr ⟨q, List.mem_cons_self q rest, hq, by rw [h]; exact hmin⟩
      · exact Or.inr ⟨p, List.mem_cons_of_mem q hp, hload, hv⟩
    · rw [calcStep_skip acc q hq]
      rcases ih acc with h | ⟨p, hp, hload, hv⟩
      · exact Or.inl h
      · exact Or.inr ⟨p, List.mem_cons_of_mem q hp, hload, hv⟩

theorem calc_foldl_snd_le (ps : List Phdr) (acc : Nat × Nat) :
    acc.2 ≤ (ps.foldl calcStep acc).2 ∧
      ∀ p ∈ ps, p.p_type = PT_LOAD →
        add64 p.p_vaddr p.p_memsz ≤ (ps.foldl calcStep acc).2 := by
  induction ps generalizing acc with
  | nil => exact ⟨le_refl _, by simp⟩
  | cons q rest ih =>
    simp only [List.foldl_cons]
    obtain ⟨h1, h2⟩ := ih (calcStep acc q)
    have hstep : acc.2 ≤ (calcStep acc q).2 := by
      by_cases hq : q.p_type = PT_LOAD
      · rw [calcStep_load acc q hq]; exact le_max_left _ _
      · rw [calcStep_skip acc q hq]
    refine ⟨le_trans hstep h1, ?_⟩
    intro p hp hload
    rcases List.mem_cons.mp hp with hp | hp
    · subst hp
      refine le_trans ?_ h1
      rw [calcStep_load acc p hload]
      exact le_max_right _ _
    · exact h2 p hp hload

theorem calc_foldl_snd_mem (ps : List Phdr) (acc : Nat × Nat) :
    (ps.foldl calcStep acc).2 = acc.2 ∨
      ∃ p ∈ ps, p.p_type = PT_LOAD ∧
        (ps.foldl calcStep acc).2 = add64 p.p_vaddr p.p_memsz := by
  induction ps generalizing acc with
  | nil => exact Or.inl rfl
  | cons q rest ih =>
    simp only [List.foldl_cons]
    by_cases hq : q.p_type = PT_LOAD
    · rw [calcStep_load acc q hq]
      rcases ih (min acc.1 q.p_vaddr, max acc.2 (add64 q.p_vaddr q.p_memsz)) with h | ⟨p, hp, hload, hv⟩
      · rcases max_cases acc.2 (add64 q.p_vaddr q.p_memsz) with ⟨hmax, _⟩ | ⟨hmax, _⟩
        · exact Or.inl (by rw [h]; exact hmax)
        · exact Or.inr ⟨q, List.mem_cons_self q rest, hq, by rw [h]; exact hmax⟩
      · exact Or.inr ⟨p, List.mem_cons_of_mem q hp, hload, hv⟩
    · rw [calcStep_skip acc q hq]
      rcases ih acc with h | ⟨p, hp, hload, hv⟩
      · exact Or.inl h
      · exact Or.inr ⟨p, List.mem_cons_of_mem q hp, hload, hv⟩

theorem add64_eq_add_of_le (a b : Nat) (h : a + b ≤ MAX_UINT64) :
    add64 a b = a + b := by
  unfold add64
  exact Nat.mod_eq_of_lt (by unfold MAX_UINT64 at h; unfold UINT64_MOD; omega)

/-- A loadable program header whose `p_vaddr + p_memsz` overflows UINT64:
`p_vaddr = MAX_UINT64`, `p_memsz = 2`, so the C code's 64-bit sum wraps to 1. -/
def overflowPhdr : Phdr :=
  { p_type := PT_LOAD, p_flags := 0, p_offset := 0, p_vaddr := MAX_UINT64,
    p_paddr := 0, p_filesz := 0, p_memsz := 2, p_align := 0 }

/-- C3 counterexample: for an ELF with one loadable program-header entry whose
`p_vaddr + p_memsz` overflows 64 bits, `CalcLoadAddressRange` computes the
wrapped sum, so the returned `last` is not the mathematical maximum of
`p_vaddr + p_memsz` and `first ≤ last` fails: the claim as stated is false. -/
theorem CalcLoadAddressRange_overflow_cex :
    overflowPhdr.p_type = PT_LOAD ∧
    CalcLoadAddressRange [overflowPhdr] = (MAX_UINT64, 1) ∧
    ¬((CalcLoadAddressRange [overflowPhdr]).1 ≤ (CalcLoadAddressRange [overflowPhdr]).2) ∧
    (CalcLoadAddressRange [overflowPhdr]).2 ≠ overflowPhdr.p_vaddr + overflowPhdr.p_memsz := by
  refine ⟨rfl, rfl, ?_, ?_⟩ <;> decide

/-- C3 (amended): for every ELF64 program-header list with at least one
loadable entry, provided no loadable entry's `p_vaddr + p_memsz` exceeds
`MAX_UINT64` (no 64-bit overflow), `CalcLoadAddressRange` returns `first`
equal to the minimum `p_vaddr` over loadable entries and `last` equal to the
maximum `p_vaddr + p_memsz` over loadable entries (each characterised as an
attained lower/upper bound), and `first ≤ last`. -/
theorem CalcLoadAddressRange_correct (ps : List Phdr)
    (hne : ∃ p ∈ ps, p.p_type = PT_LOAD)
    (hbound : ∀ p ∈ ps, p.p_type = PT_LOAD → p.p_vaddr + p.p_memsz ≤ MAX_UINT64) :
    (∃ p ∈ ps, p.p_type = PT_LOAD ∧ (CalcLoadAddressRange ps).1 = p.p_vaddr) ∧
    (∀ p ∈ ps, p.p_type = PT_LOAD → (CalcLoadAddressRange ps).1 ≤ p.p_vaddr) ∧
    (∃ p ∈ ps, p.p_type = PT_LOAD ∧ (CalcLoadAddressRange ps).2 = p.p_vaddr + p.p_memsz) ∧
    (∀ p ∈ ps, p.p_type = PT_LOAD → p.p_vaddr + p.p_memsz ≤ (CalcLoadAddressRange ps).2) ∧
    (CalcLoadAddressRange ps).1 ≤ (CalcLoadAddressRange ps).2 := by
  obtain ⟨p0, hp0, hl0⟩ := hne
  have hadd : ∀ p ∈ ps, p.p_type = PT_LOAD →
      add64 p.p_vaddr p.p_memsz = p.p_vaddr + p.p_memsz := by
    intro p hp hl
    exact add64_eq_add_of_le _ _ (hbound p hp hl)
  have hfle := calc_foldl_fst_le ps (MAX_UINT64, 0)
  have hfmem := calc_foldl_fst_mem ps (MAX_UINT64, 0)
  have hsle := calc_foldl_snd_le ps (MAX_UINT64, 0)
  have hsmem := calc_foldl_snd_mem ps (MAX_UINT64, 0)
  have hfst : ∃ p ∈ ps, p.p_type = PT_LOAD ∧ (CalcLoadAddressRange ps).1 = p.p_vaddr := by
    rcases hfmem with h | ⟨p, hp, hl, hv⟩
    · refine ⟨p0, hp0, hl0, ?_⟩
      have h1 : (CalcLoadAddressRange ps).1 ≤ p0.p_vaddr := hfle.2 p0 hp0 hl0
      have h2 : p0.p_vaddr ≤ MAX_UINT64 :=
        le_trans (Nat.le_add_right _ _) (hbound p0 hp0 hl0)
      unfold CalcLoadAddressRange at *
      omega
    · exact ⟨p, hp, hl, hv⟩
  have hsnd : ∃ p ∈ ps, p.p_type = PT_LOAD ∧
      (CalcLoadAddressRange ps).2 = p.p_vaddr + p.p_memsz := by
    rcases hsmem with h | ⟨p, hp, hl, hv⟩
    · refine ⟨p0, hp0, hl0, ?_⟩
      have h1 : add64 p0.p_vaddr p0.p_memsz ≤ (CalcLoadAddressRange ps).2 :=
        hsle.2 p0 hp0 hl0
      rw [hadd p0 hp0 hl0] at h1
      unfold CalcLoadAddressRange at *
      omega
    · exact ⟨p, hp, hl, by unfold CalcLoadAddressRange; rw [hv, hadd p hp hl]⟩
  have hsall : ∀ p ∈ ps, p.p_type = PT_LOAD →
      p.p_vaddr + p.p_memsz ≤ (CalcLoadAddressRange ps).2 := by
    intro p hp hl
    have := hsle.2 p hp hl
    rwa [hadd p hp hl] at this
  refine ⟨hfst, fun p hp hl => hfle.2 p hp hl, hsnd, hsall, ?_⟩
  obtain ⟨p, hp, hl, hv⟩ := hfst
  calc (CalcLoadAddressRange ps).1 = p.p_vaddr := hv
    _ ≤ p.p_vaddr + p.p_memsz := Nat.le_add_right _ _
    _ ≤ (CalcLoadAddressRange ps).2 := hsall p hp hl

/-- Program headers for the `CalcLoadAddressRange_correct` witness: one
loadable segment and one non-loadable (`PT_NOTE`) entry. -/
def c3Phdrs : List Phdr :=
  [{ p_type := PT_LOAD, p_flags := 5, p_offset := 0x1000, p_vaddr := 0x100000,
     p_paddr := 0, p_filesz := 0x100, p_memsz := 0x200, p_align := 0x1000 },
   { p_type := 4, p_flags := 0, p_offset := 0, p_vaddr := 0,
     p_paddr := 0, p_filesz := 0, p_memsz := 0, p_align := 0 }]

/-- Witness for `CalcLoadAddressRange_correct` at a concrete input. -/
theorem CalcLoadAddressRange_correct_witness :
    (CalcLoadAddressRange c3Phdrs).1 ≤ (CalcLoadAddressRange c3Phdrs).2 ∧
    (∃ p ∈ c3Phdrs, p.p_type = PT_LOAD ∧ (CalcLoadAddressRange c3Phdrs).1 = p.p_vaddr) :=
  ⟨(CalcLoadAddressRange_correct c3Phdrs (by decide) (by decide)).2.2.2.2,
   (CalcLoadAddressRange_correct c3Phdrs (by decide) (by decide)).1⟩

/-! ### `CopyLoadSegments` (Main.c lines 176-187) -/

/-- Byte-addressed memory, one byte value per address. -/
def Mem : Type := Nat → Nat

/-- The EDK2 `CopyMem(dst, src, len)`: copies `len` bytes from `src` to `dst`. -/
def CopyMem (m : Mem) (dst src len : Nat) : Mem :=
  fun a => if dst ≤ a ∧ a < dst + len then m (src + (a - dst)) else m a

/-- The EDK2 `SetMem(dst, len, v)`: fills `len` bytes at `dst` with the value `v`. -/
def SetMem (m : Mem) (dst len v : Nat) : Mem :=
  fun a => if dst ≤ a ∧ a < dst + len then v else m a

/-- One iteration of the loop body of `CopyLoadSegments` (Main.c lines
178-186): non-`PT_LOAD` entries are skipped; a loadable entry copies
`p_filesz` bytes from `(UINT64)ehdr + p_offset` to `p_vaddr` and then zeroes
`p_memsz - p_filesz` bytes at `p_vaddr + p_filesz`, all address arithmetic
being 64-bit. -/
def copySegStep (ehdrAddr : Nat) (m : Mem) (p : Phdr) : Mem :=
  if p.p_type ≠ PT_LOAD then m
  else
    SetMem (CopyMem m p.p_vaddr (add64 ehdrAddr p.p_offset) p.p_filesz)
      (add64 p.p_vaddr p.p_filesz) (sub64 p.p_memsz p.p_filesz) 0

/-- The function `CopyLoadSegments` (Main.c lines 176-187): processes the program-header
table in order, starting from memory state `m` in which the ELF file is
resident at address `ehdrAddr`. -/
def CopyLoadSegments (ehdrAddr : Nat) (ps : List Phdr) (m : Mem) : Mem :=
  ps.foldl (copySegStep ehdrAddr) m

/-- Two loadable segments whose memory footprints overlap (both map virtual
address 0) but whose file images differ. -/
def c5OverlapPhdrs : List Phdr :=
  [{ p_type := PT_LOAD, p_flags := 0, p_offset := 100, p_vaddr := 0,
     p_paddr := 0, p_filesz := 1, p_memsz := 1, p_align := 0 },
   { p_type := PT_LOAD, p_flags := 0, p_offset := 200, p_vaddr := 0,
     p_paddr := 0, p_filesz := 1, p_memsz := 1, p_align := 0 }]

/-- Initial memory for the overlap counterexample: the ELF file lives at
address 10000, with byte 5 at file offset 100 and byte 7 at file offset 200. -/
def c5OverlapMem : Mem :=
  fun a => if a = 10100 then 5 else if a = 10200 then 7 else 0

/-- C5 counterexample: with two loadable segments whose memory footprints
overlap, the destination byte of the first loadable segment does not hold
that segment's file byte after `CopyLoadSegments` (the second copy overwrote
it), so the claim's per-segment postcondition is false as stated. -/
theorem CopyLoadSegments_overlap_cex :
    (c5OverlapPhdrs.get ⟨0, by decide⟩).p_type = PT_LOAD ∧
    c5OverlapMem (add64 10000 (c5OverlapPhdrs.get ⟨0, by decide⟩).p_offset) = 5 ∧
    CopyLoadSegments 10000 c5OverlapPhdrs c5OverlapMem
      ((c5OverlapPhdrs.get ⟨0, by decide⟩).p_vaddr + 0) = 7 ∧
    CopyLoadSegments 10000 c5OverlapPhdrs c5OverlapMem
        ((c5OverlapPhdrs.get ⟨0, by decide⟩).p_vaddr + 0) ≠
      c5OverlapMem (add64 10000 (c5OverlapPhdrs.get ⟨0, by decide⟩).p_offset + 0) := by
  refine ⟨rfl, ?_, ?_, ?_⟩ <;> decide

/-- The memory footprint `[p_vaddr, p_vaddr + p_memsz)` of a segment. -/
def inFootprint (p : Phdr) (a : Nat) : Prop :=
  p.p_vaddr ≤ a ∧ a < p.p_vaddr + p.p_memsz

/-- The file-backed source region `[ehdrAddr + p_offset,
ehdrAddr + p_offset + p_filesz)` of a segment. -/
def inSrcRegion (ehdrAddr : Nat) (p : Phdr) (a : Nat) : Prop :=
  ehdrAddr + p.p_offset ≤ a ∧ a < ehdrAddr + p.p_offset + p.p_filesz

/-- Well-formedness of a loadable segment: the file size fits in the memory
size and the 64-bit address computations of the copy loop do not overflow. -/
def SegWF (ehdrAddr : Nat) (p : Phdr) : Prop :=
  p.p_filesz ≤ p.p_memsz ∧ p.p_vaddr + p.p_memsz ≤ MAX_UINT64 ∧
    ehdrAddr + p.p_offset ≤ MAX_UINT64

instance (ehdrAddr : Nat) (p : Phdr) : Decidable (SegWF ehdrAddr p) := by
  unfold SegWF; infer_instance

theorem sub64_eq_sub (a b : Nat) (hba : b ≤ a) (ha : a ≤ MAX_UINT64) :
    sub64 a b = a - b := by
  unfold sub64 UINT64_MOD
  unfold MAX_UINT64 at ha
  omega

theorem copySegStep_skip (e : Nat) (m : Mem) (p : Phdr) (h : p.p_type ≠ PT_LOAD) :
    copySegStep e m p = m := by
  unfold copySegStep
  exact if_pos h

theorem copySegStep_outside (e : Nat) (m : Mem) (p : Phdr)
    (hl : p.p_type = PT_LOAD) (hwf : SegWF e p) (a : Nat)
    (ha : ¬ inFootprint p a) : copySegStep e m p a = m a := by
  obtain ⟨h1, h2, h3⟩ := hwf
  unfold inFootprint at ha
  unfold copySegStep
  rw [if_neg (by simp [hl])]
  unfold SetMem CopyMem
  rw [add64_eq_add_of_le p.p_vaddr p.p_filesz (by omega),
    sub64_eq_sub p.p_memsz p.p_filesz h1 (by omega)]
  rw [if_neg (by omega), if_neg (by omega)]

theorem copySegStep_file (e : Nat) (m : Mem) (p : Phdr)
    (hl : p.p_type = PT_LOAD) (hwf : SegWF e p) (i : Nat) (hi : i < p.p_filesz) :
    copySegStep e m p (p.p_vaddr + i) = m (e + p.p_offset + i) := by
  obtain ⟨h1, h2, h3⟩ := hwf
  unfold copySegStep
  rw [if_neg (by simp [hl])]
  unfold SetMem CopyMem
  rw [add64_eq_add_of_le p.p_vaddr p.p_filesz (by omega),
    sub64_eq_sub p.p_memsz p.p_filesz h1 (by omega),
    add64_eq_add_of_le e p.p_offset h3]
  rw [if_neg (by omega), if_pos (by omega)]
  congr 1
  omega

theorem copySegStep_zero (e : Nat) (m : Mem) (p : Phdr)
    (hl : p.p_type = PT_LOAD) (hwf : SegWF e p) (i : Nat)
    (h1i : p.p_filesz ≤ i) (h2i : i < p.p_memsz) :
    copySegStep e m p (p.p_vaddr + i) = 0 := by
  obtain ⟨h1, h2, h3⟩ := hwf
  unfold copySegStep
  rw [if_neg (by simp [hl])]
  unfold SetMem
  rw [add64_eq_add_of_le p.p_vaddr p.p_filesz (by omega),
    sub64_eq_sub p.p_memsz p.p_filesz h1 (by omega)]
  rw [if_pos (by omega)]

/-- Disjointness of two segments' memory footprints, as required between any
two loadable entries for the per-segment postcondition to hold. -/
def FootprintDisj (p q : Phdr) : Prop :=
  p.p_type = PT_LOAD → q.p_type = PT_LOAD → ∀ a, ¬(inFootprint p a ∧ inFootprint q a)

theorem copy_foldl_spec (e : Nat) (m0 : Mem) (ps : List Phdr) :
    ∀ m : Mem,
      (∀ p ∈ ps, p.p_type = PT_LOAD → SegWF e p) →
      List.Pairwise FootprintDisj ps →
      (∀ p ∈ ps, ∀ q ∈ ps, p.p_type = PT_LOAD → q.p_type = PT_LOAD →
        ∀ a, ¬(inSrcRegion e q a ∧ inFootprint p a)) →
      (∀ q ∈ ps, q.p_type = PT_LOAD → ∀ a, inSrcRegion e q a → m a = m0 a) →
      (∀ p ∈ ps, p.p_type = PT_LOAD →
        (∀ i, i < p.p_filesz →
          ps.foldl (copySegStep e) m (p.p_vaddr + i) = m0 (e + p.p_offset + i)) ∧
        (∀ i, p.p_filesz ≤ i → i < p.p_memsz →
          ps.foldl (copySegStep e) m (p.p_vaddr + i) = 0)) ∧
      (∀ a, (∀ p ∈ ps, p.p_type = PT_LOAD → ¬ inFootprint p a) →
        ps.foldl (copySegStep e) m a = m a) := by
  induction ps with
  | nil =>
    intro m _ _ _ _
    exact ⟨by simp, fun a _ => rfl⟩
  | cons q rest ih =>
    intro m hwf hpw hsrc hagree
    have hpw_head : ∀ r ∈ rest, FootprintDisj q r := (List.pairwise_cons.mp hpw).1
    have hpw_rest : List.Pairwise FootprintDisj rest := (List.pairwise_cons.mp hpw).2
    have hwf_rest : ∀ p ∈ rest, p.p_type = PT_LOAD → SegWF e p :=
      fun p hp => hwf p (List.mem_cons_of_mem q hp)
    have hsrc_rest : ∀ p ∈ rest, ∀ r ∈ rest, p.p_type = PT_LOAD → r.p_type = PT_LOAD →
        ∀ a, ¬(inSrcRegion e r a ∧ inFootprint p a) :=
      fun p hp r hr => hsrc p (List.mem_cons_of_mem q hp) r (List.mem_cons_of_mem q hr)
    by_cases hqload : q.p_type = PT_LOAD
    · -- the head entry is loadable; let m' be the state after copying it
      have hqwf := hwf q (List.mem_cons_self q rest) hqload
      set m' := copySegStep e m q with hm'
      have hA : ∀ a, ¬ inFootprint q a → m' a = m a :=
        fun a ha => copySegStep_outside e m q hqload hqwf a ha
      have hagree_rest : ∀ r ∈ rest, r.p_type = PT_LOAD →
          ∀ a, inSrcRegion e r a → m' a = m0 a := by
        intro r hr hrload a hain
        have hnofp : ¬ inFootprint q a := by
          intro hfp
          exact hsrc q (List.mem_cons_self q rest) r (List.mem_cons_of_mem q hr)
            hqload hrload a ⟨hain, hfp⟩
        rw [hA a hnofp]
        exact hagree r (List.mem_cons_of_mem q hr) hrload a hain
      obtain ⟨ihA, ihB⟩ := ih m' hwf_rest hpw_rest hsrc_rest hagree_rest
      have hrest_out : ∀ a, inFootprint q a → rest.foldl (copySegStep e) m' a = m' a := by
        intro a hfp
        refine ihB a ?_
        intro r hr hrload hfpr
        exact hpw_head r hr hqload hrload a ⟨hfp, hfpr⟩
      constructor
      · intro p hp hpload
        rcases List.mem_cons.mp hp with hp | hp
        · subst hp
          have hfs := hqwf.1
          have hms := hqwf.2.1
          constructor
          · intro i hi
            have hfp : inFootprint p (p.p_vaddr + i) := by
              unfold inFootprint
              omega
            rw [List.foldl_cons, ← hm', hrest_out _ hfp, hm',
              copySegStep_file e m p hpload hqwf i hi]
            refine hagree p (List.mem_cons_self p rest) hpload _ ?_
            unfold inSrcRegion
            omega
          · intro i h1i h2i
            have hfp : inFootprint p (p.p_vaddr + i) := by
              unfold inFootprint
              omega
            rw [List.foldl_cons, ← hm', hrest_out _ hfp]
            exact copySegStep_zero e m p hpload hqwf i h1i h2i
        · have := ihA p hp hpload
          constructor
          · intro i hi
            rw [List.foldl_cons, ← hm']
            exact this.1 i hi
          · intro i h1i h2i
            rw [List.foldl_cons, ← hm']
            exact this.2 i h1i h2i
      · intro a ha
        rw [List.foldl_cons, ← hm',
          ihB a (fun p hp hpload => ha p (List.mem_cons_of_mem q hp) hpload),
          hA a (ha q (List.mem_cons_self q rest) hqload)]
    · -- the head entry is not loadable: the state is unchanged
      have hskip : copySegStep e m q = m := copySegStep_skip e m q hqload
      have hagree_rest : ∀ r ∈ rest, r.p_type = PT_LOAD →
          ∀ a, inSrcRegion e r a → m a = m0 a :=
        fun r hr => hagree r (List.mem_cons_of_mem q hr)
      obtain ⟨ihA, ihB⟩ := ih m hwf_rest hpw_rest hsrc_rest hagree_rest
      constructor
      · intro p hp hpload
        rcases List.mem_cons.mp hp with hp | hp
        · exact absurd (hp ▸ hpload) hqload
        · have := ihA p hp hpload
          constructor
          · intro i hi
            rw [List.foldl_cons, hskip]
            exact this.1 i hi
          · intro i h1i h2i
            rw [List.foldl_cons, hskip]
            exact this.2 i h1i h2i
      · intro a ha
        rw [List.foldl_cons, hskip]
        exact ihB a (fun p hp hpload => ha p (List.mem_cons_of_mem q hp) hpload)

/-- C5 (amended): after `CopyLoadSegments`, for every loadable segment —
provided the loadable segments are well-formed (`p_filesz ≤ p_memsz`, no
64-bit overflow), their memory footprints are pairwise disjoint, and no
segment's file-backed source region intersects a loadable footprint — the
destination memory at the segment's virtual address holds exactly its
`p_filesz` file bytes from file offset `p_offset` followed by
`p_memsz - p_filesz` zero bytes; addresses outside every loadable footprint
(in particular everything a non-loadable entry describes) are unchanged, and
a non-loadable entry leaves memory entirely unchanged. -/
theorem CopyLoadSegments_correct (e : Nat) (ps : List Phdr) (m0 : Mem)
    (hwf : ∀ p ∈ ps, p.p_type = PT_LOAD → SegWF e p)
    (hpw : List.Pairwise FootprintDisj ps)
    (hsrc : ∀ p ∈ ps, ∀ q ∈ ps, p.p_type = PT_LOAD → q.p_type = PT_LOAD →
      ∀ a, ¬(inSrcRegion e q a ∧ inFootprint p a)) :
    (∀ p ∈ ps, p.p_type = PT_LOAD →
      (∀ i, i < p.p_filesz →
        CopyLoadSegments e ps m0 (p.p_vaddr + i) = m0 (e + p.p_offset + i)) ∧
      (∀ i, p.p_filesz ≤ i → i < p.p_memsz →
        CopyLoadSegments e ps m0 (p.p_vaddr + i) = 0)) ∧
    (∀ a, (∀ p ∈ ps, p.p_type = PT_LOAD → ¬ inFootprint p a) →
      CopyLoadSegments e ps m0 a = m0 a) ∧
    (∀ (m : Mem) (p : Phdr), p.p_type ≠ PT_LOAD → copySegStep e m p = m) := by
  obtain ⟨hA, hB⟩ := copy_foldl_spec e m0 ps m0 hwf hpw hsrc
    (fun _ _ _ _ _ => rfl)
  exact ⟨hA, hB, fun m p h => copySegStep_skip e m p h⟩

/-- The loadable segment used by the `CopyLoadSegments_correct` witness. -/
def c5WSeg : Phdr :=
  { p_type := PT_LOAD, p_flags := 5, p_offset := 64, p_vaddr := 8192,
    p_paddr := 0, p_filesz := 2, p_memsz := 4, p_align := 0 }

/-- Initial memory for the `CopyLoadSegments_correct` witness. -/
def c5WMem : Mem := fun a => a % 251

/-- Witness for `CopyLoadSegments_correct` at a concrete input. -/
theorem CopyLoadSegments_correct_witness :
    CopyLoadSegments 1000 [c5WSeg] c5WMem (c5WSeg.p_vaddr + 0) =
        c5WMem (1000 + c5WSeg.p_offset + 0) ∧
    CopyLoadSegments 1000 [c5WSeg] c5WMem (c5WSeg.p_vaddr + 2) = 0 := by
  have h := CopyLoadSegments_correct 1000 [c5WSeg] c5WMem
    (by decide)
    (by simp)
    (by
      simp only [List.mem_singleton]
      rintro p rfl r rfl _ _ a ⟨hs, hf⟩
      unfold inSrcRegion at hs
      unfold inFootprint at hf
      unfold c5WSeg at hs hf
      simp at hs hf
      omega)
  obtain ⟨hA, _, _⟩ := h
  have hseg := hA c5WSeg (List.mem_singleton.mpr rfl) rfl
  exact ⟨hseg.1 0 (by decide), hseg.2 2 (by decide) (by decide)⟩

/-! ### `SaveMemoryMap` (Main.c lines 85-112) and the memory-map report -/

/-- One UEFI memory descriptor (`EFI_MEMORY_DESCRIPTOR`), the fields the
report consumes. -/
structure MemDesc where
  mtype : Nat
  PhysicalStart : Nat
  NumberOfPages : Nat
  Attribute : Nat
deriving DecidableEq, Repr

/-- The function `GetMemoryTypeUnicode` (Main.c lines 45-82): printable name for a UEFI
memory type. The numeric values of `EFI_MEMORY_TYPE` are fixed by the UEFI
specification (EfiReservedMemoryType = 0 through EfiMaxMemoryType = 15). -/
def GetMemoryTypeUnicode (t : Nat) : String :=
  match t with
  | 0 => "EfiReservedMemoryType"
  | 1 => "EfiLoaderCode"
  | 2 => "EfiLoaderData"
  | 3 => "EfiBootServicesCode"
  | 4 => "EfiBootServicesData"
  | 5 => "EfiRuntimeServicesCode"
  | 6 => "EfiRuntimeServicesData"
  | 7 => "EfiConventionalMemory"
  | 8 => "EfiUnusableMemory"
  | 9 => "EfiACPIReclaimMemory"
  | 10 => "EfiACPIMemoryNVS"
  | 11 => "EfiMemoryMappedIO"
  | 12 => "EfiMemoryMappedIOPortSpace"
  | 13 => "EfiPalCode"
  | 14 => "EfiPersistentMemory"
  | 15 => "EfiMaxMemoryType"
  | _ => "InvalidMemoryType"

/-- One line of the persisted memory-map report: the header line, or a data
row carrying the numeric fields written via `AsciiSPrint`
`"%u, %x, %-ls, %08lx, %lx, %lx\n"` (index, type, type name, physical start,
page count, attribute masked to its low 20 bits). -/
inductive ReportLine where
  | header
  | row (index mtype : Nat) (name : String) (phys pages attr : Nat)
deriving DecidableEq, Repr

/-- The data rows of the report, starting at row index `i`: the loop of
`SaveMemoryMap` (Main.c lines 97-109), one row per descriptor, with
`desc->Attribute & 0xfffff` (`0xffffflu`) masking to the low 20 bits. -/
def reportRows (i : Nat) : List MemDesc → List ReportLine
  | [] => []
  | d :: ds =>
    ReportLine.row i d.mtype (GetMemoryTypeUnicode d.mtype)
        d.PhysicalStart d.NumberOfPages (d.Attribute % 1048576) :: reportRows (i + 1) ds

/-- The header text written first by `SaveMemoryMap` (Main.c lines 89-92). -/
def reportHeaderText : String :=
  "Index, Type, Type(name), PhysicalStart, NumberOfPages, Attribute\n"

/-- The full report produced by `SaveMemoryMap` for a map of `descs`
descriptors: the header line followed by one row per descriptor, in order. -/
def SaveMemoryMapLines (descs : List MemDesc) : List ReportLine :=
  ReportLine.header :: reportRows 0 descs

/-- The status code `EFI_SUCCESS`. -/
def EFI_SUCCESS : Nat := 0

/-- The status returned by `SaveMemoryMap`, given an oracle `writeStatus`
yielding the status of each `file->Write` call. The code discards every
`Write` status (Main.c lines 92 and 108 ignore the return values) and
reaches `return EFI_SUCCESS` unconditionally (line 111). -/
def SaveMemoryMapStatus (descs : List MemDesc) (writeStatus : ReportLine → Nat) : Nat :=
  let _ := (SaveMemoryMapLines descs).map writeStatus
  EFI_SUCCESS

theorem reportRows_length (i : Nat) (ds : List MemDesc) :
    (reportRows i ds).length = ds.length := by
  induction ds generalizing i with
  | nil => rfl
  | cons d ds ih => simp [reportRows, ih]

theorem reportRows_get (ds : List MemDesc) :
    ∀ (i0 j : Nat) (h : j < ds.length),
      (reportRows i0 ds)[j]? =
        some (ReportLine.row (i0 + j) (ds.get ⟨j, h⟩).mtype
          (GetMemoryTypeUnicode (ds.get ⟨j, h⟩).mtype)
          (ds.get ⟨j, h⟩).PhysicalStart (ds.get ⟨j, h⟩).NumberOfPages
          ((ds.get ⟨j, h⟩).Attribute % 1048576)) := by
  induction ds with
  | nil => intro _ j h; exact absurd h (by simp)
  | cons d ds ih =>
    intro i0 j h
    match j with
    | 0 => simp [reportRows]
    | j + 1 =>
      have hj : j < ds.length := by simpa using h
      have := ih (i0 + 1) j hj
      simp only [reportRows, List.getElem?_cons_succ, List.get_cons_succ]
      rw [this]
      congr 2
      omega

/-- C9: for a memory map of `N` descriptors, the report consists of exactly
`N + 1` lines — the header line followed by one row per descriptor — and each
row's numeric fields equal the corresponding descriptor's fields bit-for-bit,
except that the attribute is masked to its low 20 bits. -/
theorem SaveMemoryMap_report_correct (descs : List MemDesc) :
    (SaveMemoryMapLines descs).length = descs.length + 1 ∧
    (SaveMemoryMapLines descs).head? = some ReportLine.header ∧
    ∀ (j : Nat) (h : j < descs.length),
      (SaveMemoryMapLines descs)[j + 1]? =
        some (ReportLine.row j (descs.get ⟨j, h⟩).mtype
          (GetMemoryTypeUnicode (descs.get ⟨j, h⟩).mtype)
          (descs.get ⟨j, h⟩).PhysicalStart (descs.get ⟨j, h⟩).NumberOfPages
          ((descs.get ⟨j, h⟩).Attribute % 1048576)) := by
  refine ⟨by simp [SaveMemoryMapLines, reportRows_length], rfl, ?_⟩
  intro j h
  have := reportRows_get descs 0 j h
  simpa [SaveMemoryMapLines] using this

/-- Descriptors for the `SaveMemoryMap_report_correct` witness; the second
attribute has bits above bit 19 set, exercising the mask. -/
def c9Descs : List MemDesc :=
  [{ mtype := 7, PhysicalStart := 0x100000, NumberOfPages := 0x40,
     Attribute := 0xf },
   { mtype := 11, PhysicalStart := 0xfee00000, NumberOfPages := 1,
     Attribute := 0x8000000000000001 }]

/-- Witness for `SaveMemoryMap_report_correct` at a concrete input. -/
theorem SaveMemoryMap_report_correct_witness :
    (SaveMemoryMapLines c9Descs).length = c9Descs.length + 1 ∧
    (SaveMemoryMapLines c9Descs)[2]? =
      some (ReportLine.row 1 (c9Descs.get ⟨1, by decide⟩).mtype
        (GetMemoryTypeUnicode (c9Descs.get ⟨1, by decide⟩).mtype)
        (c9Descs.get ⟨1, by decide⟩).PhysicalStart
        (c9Descs.get ⟨1, by decide⟩).NumberOfPages
        ((c9Descs.get ⟨1, by decide⟩).Attribute % 1048576)) :=
  ⟨(SaveMemoryMap_report_correct c9Descs).1,
   (SaveMemoryMap_report_correct c9Descs).2.2 1 (by decide)⟩

/-- C10: `SaveMemoryMap` returns `EFI_SUCCESS` for every memory map and every
behaviour of the file's `Write` operation: the statuses of the `Write` calls
are discarded, so write failures are silently swallowed. -/
theorem SaveMemoryMap_always_success (descs : List MemDesc)
    (writeStatus : ReportLine → Nat) :
    SaveMemoryMapStatus descs writeStatus = EFI_SUCCESS := rfl

/-! ### Pixel formats (Main.c lines 306-320) -/

/-- The `EFI_GRAPHICS_PIXEL_FORMAT` values, fixed by the UEFI specification. -/
def PixelRedGreenBlueReserved8BitPerColor : Nat := 0

def PixelBlueGreenRedReserved8BitPerColor : Nat := 1

def PixelBitMask : Nat := 2

def PixelBltOnly : Nat := 3

def PixelFormatMax : Nat := 4

/-- The loader-internal pixel-format tags (`frame_buffer.hpp`). -/
inductive PixelFormatTag where
  | kPixelRGBResv8BitPerColor
  | kPixelBGRResv8BitPerColor
deriving DecidableEq, Repr

/-- The pixel-format switch of `UefiMain` (Main.c lines 310-320): the two
reserved-channel 8-bit-per-color orderings map to the internal tags; every
other reported format falls into the `default` branch (`none` here), which
prints a diagnostic and halts. -/
def pixelFormatToTag (fmt : Nat) : Option PixelFormatTag :=
  if fmt = PixelRedGreenBlueReserved8BitPerColor then
    some PixelFormatTag.kPixelRGBResv8BitPerColor
  else if fmt = PixelBlueGreenRedReserved8BitPerColor then
    some PixelFormatTag.kPixelBGRResv8BitPerColor
  else none

/-! ### The `UefiMain` control flow as an event trace (Main.c lines 189-343) -/

/-- The pieces of `struct MemoryMap` (Main.c lines 17-26) that the
exit-boot-services logic observes: whether `buffer` is `NULL`, and the
freshness token `map_key`. The descriptor payload is elided. -/
structure MemoryMapState where
  bufferNull : Bool
  map_key : Nat
deriving DecidableEq, Repr

/-- The function `GetMemoryMap` (Main.c lines 33-42): fails with `EFI_BUFFER_TOO_SMALL`
when `map->buffer == NULL`; otherwise forwards to the firmware, which either
fails (`fw = none`, state unchanged) or succeeds and stores a fresh
`map_key` (`fw = some k`). Returns the updated state and a success flag. -/
def GetMemoryMap (st : MemoryMapState) (fw : Option Nat) : MemoryMapState × Bool :=
  if st.bufferNull then (st, false)
  else
    match fw with
    | some k => ({ st with map_key := k }, true)
    | none => (st, false)

/-- The observable behaviour of the firmware environment across one run of
`UefiMain`: the result of the i-th `GetMemoryMap` firmware call, whether the
i-th `ExitBootServices` call is accepted, the success of each fallible setup
step, the kernel's program headers, the reported pixel format, the
configuration-table list (ACPI match flag and table pointer per entry), the
entry address read from the loaded image, and whether the kernel entry call
ever returns. -/
structure BootEnv where
  gmmResult : Nat → Option Nat
  exitAccepts : Nat → Bool
  openKernelOk : Bool
  allocPoolOk : Bool
  readKernelOk : Bool
  phdrs : List Phdr
  allocPagesOk : Bool
  freePoolOk : Bool
  pixelFormat : Nat
  configTables : List (Bool × Nat)
  entryAddr : Nat
  kernelReturns : Bool

/-- Observable events of one `UefiMain` run. -/
inductive Ev where
  | print
  | captureMap (ok : Bool) (key : Nat)
  | saveMap
  | queryGopMode
  | exitBS (key : Nat) (accepted : Bool)
  | allocPages (pages addr : Nat) (ok : Bool)
  | copySegs
  | acpiScan (table : Option Nat)
  | enterKernel (entry : Nat)
  | halt
deriving DecidableEq, Repr

/-- The configuration-table scan (Main.c lines 322-329): `acpi_table` starts
as `NULL` and the loop breaks at the first entry whose vendor GUID matches
`gEfiAcpiTableGuid` (the per-entry `CompareGuid` outcome is the `Bool`). -/
def findAcpiTable : List (Bool × Nat) → Option Nat
  | [] => none
  | (g, p) :: rest => if g then some p else findAcpiTable rest

/-- The trace suffix after `ExitBootServices` succeeds (Main.c lines
306-343): read `gop->Mode` to build the `FrameBufferConfig`, switch on the
pixel format (unsupported formats print and halt), scan the configuration
tables for the ACPI table, read the entry address and call the kernel entry
point; if that call ever returns, print a diagnostic and halt. -/
def afterExitTrace (env : BootEnv) (t : List Ev) : List Ev :=
  let t1 := t ++ [Ev.queryGopMode]
  match pixelFormatToTag env.pixelFormat with
  | none => t1 ++ [Ev.print, Ev.halt]
  | some _ =>
    let t2 := t1 ++ [Ev.acpiScan (findAcpiTable env.configTables)]
    let t3 := t2 ++ [Ev.enterKernel env.entryAddr]
    if env.kernelReturns then t3 ++ [Ev.print, Ev.halt] else t3

/-- The event trace of `UefiMain` (Main.c lines 189-343), in source order:
hello print; initial `GetMemoryMap` (status discarded, line 203); report
save and prints; GOP mode reads for the resolution/frame-buffer prints;
kernel-file open, pool allocation and file read (each printing and halting
on error); `CalcLoadAddressRange` and `AllocatePages` (page count computed
from the 64-bit wrapped range difference, halting on error);
`CopyLoadSegments`; `FreePool`; the first `ExitBootServices` with the
current `map_key`, on rejection one `GetMemoryMap` re-capture (halting on
its failure) and one retry `ExitBootServices` (halting on a second
rejection); then the post-exit suffix. -/
def UefiMainTrace (env : BootEnv) : List Ev :=
  let r0 := GetMemoryMap { bufferNull := false, map_key := 0 } (env.gmmResult 0)
  let t1 : List Ev := [Ev.print, Ev.captureMap r0.2 r0.1.map_key, Ev.saveMap,
    Ev.print, Ev.queryGopMode, Ev.print, Ev.print]
  if !env.openKernelOk then t1 ++ [Ev.print, Ev.halt] else
  if !env.allocPoolOk then t1 ++ [Ev.print, Ev.halt] else
  if !env.readKernelOk then t1 ++ [Ev.print, Ev.halt] else
  let fl := CalcLoadAddressRange env.phdrs
  let numPages := add64 (sub64 fl.2 fl.1) 0xfff / 0x1000
  let t2 := t1 ++ [Ev.allocPages numPages fl.1 env.allocPagesOk]
  if !env.allocPagesOk then t2 ++ [Ev.print, Ev.halt] else
  let t3 := t2 ++ [Ev.copySegs, Ev.print]
  if !env.freePoolOk then t3 ++ [Ev.print, Ev.halt] else
  let acc0 := env.exitAccepts 0
  let t4 := t3 ++ [Ev.exitBS r0.1.map_key acc0]
  if acc0 then afterExitTrace env t4 else
  let r1 := GetMemoryMap r0.1 (env.gmmResult 1)
  let t5 := t4 ++ [Ev.captureMap r1.2 r1.1.map_key]
  if !r1.2 then t5 ++ [Ev.print, Ev.halt] else
  let acc1 := env.exitAccepts 1
  let t6 := t5 ++ [Ev.exitBS r1.1.map_key acc1]
  if !acc1 then t6 ++ [Ev.print, Ev.halt] else
  afterExitTrace env t6

/-- Recognizer for snapshot-capture events. -/
def isCaptureEv : Ev → Bool
  | Ev.captureMap _ _ => true
  | _ => false

/-- Recognizer for exclusive-transfer (`ExitBootServices`) attempts. -/
def isExitEv : Ev → Bool
  | Ev.exitBS _ _ => true
  | _ => false

/-- Recognizer for accepted exclusive-transfer attempts. -/
def isAcceptedExitEv : Ev → Bool
  | Ev.exitBS _ true => true
  | _ => false

/-- Recognizer for data-source queries that feed the hand-off arguments:
reads of `gop->Mode` and the configuration-table scan. -/
def isDataQueryEv : Ev → Bool
  | Ev.queryGopMode => true
  | Ev.acpiScan _ => true
  | _ => false

/-- Recognizer for kernel-entry events. -/
def isEnterEv : Ev → Bool
  | Ev.enterKernel _ => true
  | _ => false

/-- Recognizer for the events whose relative order C6 is about: transfer
attempts, hand-off data queries, and the kernel entry. -/
def isOrderingEv : Ev → Bool
  | Ev.exitBS _ _ => true
  | Ev.queryGopMode => true
  | Ev.acpiScan _ => true
  | Ev.enterKernel _ => true
  | _ => false

/-- C6 as stated: every data-source query for the hand-off arguments occurs
strictly before every accepted exclusive-transfer event. -/
def noDataQueryAfterAcceptedExit (t : List Ev) : Prop :=
  ∀ i j : Fin t.length,
    isAcceptedExitEv (t.get i) = true → isDataQueryEv (t.get j) = true → j < i

/-- C7 as stated: no output of any kind occurs after the kernel entry call
(so after an `enterKernel` event, no `print` may follow). -/
def noOutputAfterKernelReturn (t : List Ev) : Prop :=
  ∀ i j : Fin t.length,
    isEnterEv (t.get i) = true → i < j → t.get j ≠ Ev.print

instance (t : List Ev) : Decidable (noDataQueryAfterAcceptedExit t) := by
  unfold noDataQueryAfterAcceptedExit
  infer_instance

instance (t : List Ev) : Decidable (noOutputAfterKernelReturn t) := by
  unfold noOutputAfterKernelReturn
  infer_instance

theorem GetMemoryMap_some (st : MemoryMapState) (k : Nat) (h : st.bufferNull = false) :
    GetMemoryMap st (some k) = ({ st with map_key := k }, true) := by
  unfold GetMemoryMap
  simp [h]

theorem GetMemoryMap_none (st : MemoryMapState) (h : st.bufferNull = false) :
    GetMemoryMap st none = (st, false) := by
  unfold GetMemoryMap
  simp [h]

theorem afterExitTrace_filter_exit (env : BootEnv) (t : List Ev) :
    (afterExitTrace env t).filter isExitEv = t.filter isExitEv := by
  unfold afterExitTrace
  cases hpf : pixelFormatToTag env.pixelFormat
  · simp [isExitEv]
  · cases hkr : env.kernelReturns <;> simp [isExitEv]

theorem afterExitTrace_filter_capture (env : BootEnv) (t : List Ev) :
    (afterExitTrace env t).filter isCaptureEv = t.filter isCaptureEv := by
  unfold afterExitTrace
  cases hpf : pixelFormatToTag env.pixelFormat
  · simp [isCaptureEv]
  · cases hkr : env.kernelReturns <;> simp [isCaptureEv]

/-- C1: if the first `ExitBootServices` call is rejected, the loader
re-captures the memory map and retries exactly once, and the transfer
attempts carry, in order, the token of the first capture (rejected) and the
token of the second, post-retry capture (accepted): the final accepted call's
argument is the most recent capture's `map_key`. -/
theorem exit_retry_uses_second_capture_key (env : BootEnv) (k1 k2 : Nat)
    (hg0 : env.gmmResult 0 = some k1) (hg1 : env.gmmResult 1 = some k2)
    (hx0 : env.exitAccepts 0 = false) (hx1 : env.exitAccepts 1 = true)
    (h1 : env.openKernelOk = true) (h2 : env.allocPoolOk = true)
    (h3 : env.readKernelOk = true) (h4 : env.allocPagesOk = true)
    (h5 : env.freePoolOk = true) :
    (UefiMainTrace env).filter isExitEv = [Ev.exitBS k1 false, Ev.exitBS k2 true] ∧
    (UefiMainTrace env).filter isCaptureEv =
      [Ev.captureMap true k1, Ev.captureMap true k2] := by
  unfold UefiMainTrace
  rw [hg0, GetMemoryMap_some _ _ rfl]
  simp only [hx0, h1, h2, h3, h4, h5, Bool.not_true, Bool.not_false, if_true,
    if_false, Bool.false_eq_true, ite_false, ite_true]
  rw [hg1, GetMemoryMap_some _ _ rfl]
  simp [hx1, afterExitTrace_filter_exit, afterExitTrace_filter_capture,
    isExitEv, isCaptureEv]

/-- Firmware environment for the `exit_retry_uses_second_capture_key`
witness: the first transfer attempt is rejected, the second accepted, and
the two snapshot captures return keys 7 and 42. -/
def c1Env : BootEnv where
  gmmResult := fun i => if i = 0 then some 7 else some 42
  exitAccepts := fun i => i == 1
  openKernelOk := true
  allocPoolOk := true
  readKernelOk := true
  phdrs := []
  allocPagesOk := true
  freePoolOk := true
  pixelFormat := 0
  configTables := []
  entryAddr := 4096
  kernelReturns := false

/-- Witness for `exit_retry_uses_second_capture_key` at a concrete
environment. -/
theorem exit_retry_uses_second_capture_key_witness :
    (UefiMainTrace c1Env).filter isExitEv =
        [Ev.exitBS 7 false, Ev.exitBS 42 true] ∧
    (UefiMainTrace c1Env).filter isCaptureEv =
        [Ev.captureMap true 7, Ev.captureMap true 42] :=
  exit_retry_uses_second_capture_key c1Env 7 42 rfl rfl rfl rfl rfl rfl rfl rfl rfl

/-- C2: whenever the environment rejects both the initial transfer attempt
and the single retry, every run halts, with at most two snapshot captures
and at most two transfer attempts (never a third of either). -/
theorem double_reject_halts (env : BootEnv)
    (hx0 : env.exitAccepts 0 = false) (hx1 : env.exitAccepts 1 = false) :
    (UefiMainTrace env).getLast? = some Ev.halt ∧
    ((UefiMainTrace env).filter isCaptureEv).length ≤ 2 ∧
    ((UefiMainTrace env).filter isExitEv).length ≤ 2 := by
  unfold UefiMainTrace
  simp only [hx0, hx1]
  cases h1 : env.openKernelOk
  case false => exact ⟨rfl, of_decide_eq_true rfl, of_decide_eq_true rfl⟩
  case true =>
  cases h2 : env.allocPoolOk
  case false => exact ⟨rfl, of_decide_eq_true rfl, of_decide_eq_true rfl⟩
  case true =>
  cases h3 : env.readKernelOk
  case false => exact ⟨rfl, of_decide_eq_true rfl, of_decide_eq_true rfl⟩
  case true =>
  cases h4 : env.allocPagesOk
  case false => exact ⟨rfl, of_decide_eq_true rfl, of_decide_eq_true rfl⟩
  case true =>
  cases h5 : env.freePoolOk
  case false => exact ⟨rfl, of_decide_eq_true rfl, of_decide_eq_true rfl⟩
  case true =>
  rcases hg0 : env.gmmResult 0 with _ | k1 <;>
    rcases hg1 : env.gmmResult 1 with _ | k2 <;>
    exact ⟨rfl, of_decide_eq_true rfl, of_decide_eq_true rfl⟩

/-- Firmware environment for the `double_reject_halts` witness: every
transfer attempt is rejected. -/
def c2Env : BootEnv where
  gmmResult := fun _ => some 9
  exitAccepts := fun _ => false
  openKernelOk := true
  allocPoolOk := true
  readKernelOk := true
  phdrs := []
  allocPagesOk := true
  freePoolOk := true
  pixelFormat := 0
  configTables := []
  entryAddr := 0
  kernelReturns := false

/-- Witness for `double_reject_halts` at a concrete environment. -/
theorem double_reject_halts_witness :
    (UefiMainTrace c2Env).getLast? = some Ev.halt ∧
    ((UefiMainTrace c2Env).filter isCaptureEv).length ≤ 2 ∧
    ((UefiMainTrace c2Env).filter isExitEv).length ≤ 2 :=
  double_reject_halts c2Env rfl rfl

/-- A program-header table with zero loadable entries (one `PT_NOTE` entry). -/
def c4Phdrs : List Phdr :=
  [{ p_type := 4, p_flags := 0, p_offset := 0, p_vaddr := 0, p_paddr := 0,
     p_filesz := 0, p_memsz := 0, p_align := 0 }]

/-- A benign environment in which the kernel ELF has zero loadable
segments and every firmware call succeeds. -/
def c4Env : BootEnv where
  gmmResult := fun _ => some 11
  exitAccepts := fun _ => true
  openKernelOk := true
  allocPoolOk := true
  readKernelOk := true
  phdrs := c4Phdrs
  allocPagesOk := true
  freePoolOk := true
  pixelFormat := 0
  configTables := []
  entryAddr := 65261
  kernelReturns := false

/-- C4: with zero loadable segments `CalcLoadAddressRange` yields
`first = MAX_UINT64 > last = 0`, yet `UefiMain` performs no `first > last`
check: the run proceeds directly to `AllocatePages` (with the wrapped page
count 1 at address `MAX_UINT64`) and, when that succeeds, continues through
segment copying to the kernel entry without ever reporting an image error or
halting — contrary to the claimed detect-and-halt behaviour. -/
theorem zero_loadable_segments_not_detected :
    (∀ p ∈ c4Env.phdrs, ¬ p.p_type = PT_LOAD) ∧
    CalcLoadAddressRange c4Env.phdrs = (MAX_UINT64, 0) ∧
    (CalcLoadAddressRange c4Env.phdrs).2 < (CalcLoadAddressRange c4Env.phdrs).1 ∧
    UefiMainTrace c4Env =
      [Ev.print, Ev.captureMap true 11, Ev.saveMap, Ev.print, Ev.queryGopMode,
       Ev.print, Ev.print, Ev.allocPages 1 MAX_UINT64 true, Ev.copySegs,
       Ev.print, Ev.exitBS 11 true, Ev.queryGopMode, Ev.acpiScan none,
       Ev.enterKernel 65261] ∧
    Ev.halt ∉ UefiMainTrace c4Env := by
  refine ⟨by decide, rfl, by decide, rfl, by decide⟩

/-- Firmware environment in which the transfer is accepted first try and the
kernel is entered; used to exhibit the post-transfer data queries. -/
def c6Env : BootEnv where
  gmmResult := fun _ => some 3
  exitAccepts := fun _ => true
  openKernelOk := true
  allocPoolOk := true
  readKernelOk := true
  phdrs := []
  allocPagesOk := true
  freePoolOk := true
  pixelFormat := 0
  configTables := [(true, 30000)]
  entryAddr := 40000
  kernelReturns := false

/-- C6 counterexample: in a run whose transfer is accepted, data-source
queries for the hand-off arguments (the `gop->Mode` read that builds the
`FrameBufferConfig`, and the configuration-table scan) occur after the
accepted `ExitBootServices` event, so the claim that they are captured
before the transfer and never queried afterwards is false on the code. -/
theorem data_query_after_exit_cex :
    ¬ noDataQueryAfterAcceptedExit (UefiMainTrace c6Env) := by
  decide

/-- C6 (amended): the graphics mode is queried before the transfer only for
the diagnostic prints; the frame-buffer descriptor and the configuration
table pointer are captured after the accepted transfer — in an accepted-first
-try run the ordered events of interest are exactly: one pre-transfer mode
query, the accepted transfer, then the mode query that builds the
`FrameBufferConfig`, the configuration-table scan, and the kernel entry. -/
theorem config_capture_after_transfer (env : BootEnv) (k1 : Nat)
    (tag : PixelFormatTag)
    (hg0 : env.gmmResult 0 = some k1) (hx0 : env.exitAccepts 0 = true)
    (hpf : pixelFormatToTag env.pixelFormat = some tag)
    (h1 : env.openKernelOk = true) (h2 : env.allocPoolOk = true)
    (h3 : env.readKernelOk = true) (h4 : env.allocPagesOk = true)
    (h5 : env.freePoolOk = true) :
    (UefiMainTrace env).filter isOrderingEv =
      [Ev.queryGopMode, Ev.exitBS k1 true, Ev.queryGopMode,
       Ev.acpiScan (findAcpiTable env.configTables),
       Ev.enterKernel env.entryAddr] := by
  unfold UefiMainTrace afterExitTrace
  rw [hg0, GetMemoryMap_some _ _ rfl, hpf]
  cases hkr : env.kernelReturns <;>
    simp [hx0, h1, h2, h3, h4, h5, isOrderingEv]

/-- Witness for `config_capture_after_transfer` at a concrete environment. -/
theorem config_capture_after_transfer_witness :
    (UefiMainTrace c6Env).filter isOrderingEv =
      [Ev.queryGopMode, Ev.exitBS 3 true, Ev.queryGopMode,
       Ev.acpiScan (findAcpiTable c6Env.configTables),
       Ev.enterKernel c6Env.entryAddr] :=
  config_capture_after_transfer c6Env 3 PixelFormatTag.kPixelRGBResv8BitPerColor
    rfl rfl rfl rfl rfl rfl rfl rfl

/-- Environment in which the kernel entry call returns to the loader. -/
def c7Env : BootEnv where
  gmmResult := fun _ => some 5
  exitAccepts := fun _ => true
  openKernelOk := true
  allocPoolOk := true
  readKernelOk := true
  phdrs := []
  allocPagesOk := true
  freePoolOk := true
  pixelFormat := 1
  configTables := []
  entryAddr := 50000
  kernelReturns := true

/-- C7 counterexample: when the kernel entry call returns, the loader emits a
diagnostic `Print` (Main.c line 339) before halting, so the claim that no
further output of any kind is attempted after the return is false on the
code. -/
theorem output_after_kernel_return_cex :
    ¬ noOutputAfterKernelReturn (UefiMainTrace c7Env) := by
  decide

/-- C7 (amended): if the kernel entry call returns, the loader attempts
exactly one diagnostic output and then halts, the halt being the final
event: the trace ends with `enterKernel`, `print`, `halt`. -/
theorem kernel_return_prints_then_halts (env : BootEnv) (tag : PixelFormatTag)
    (hpf : pixelFormatToTag env.pixelFormat = some tag)
    (hkr : env.kernelReturns = true) (hx0 : env.exitAccepts 0 = true)
    (h1 : env.openKernelOk = true) (h2 : env.allocPoolOk = true)
    (h3 : env.readKernelOk = true) (h4 : env.allocPagesOk = true)
    (h5 : env.freePoolOk = true) :
    (UefiMainTrace env).reverse.take 3 =
      [Ev.halt, Ev.print, Ev.enterKernel env.entryAddr] := by
  unfold UefiMainTrace afterExitTrace
  rw [hpf]
  simp [hx0, hkr, h1, h2, h3, h4, h5]

/-- Witness for `kernel_return_prints_then_halts` at a concrete
environment. -/
theorem kernel_return_prints_then_halts_witness :
    (UefiMainTrace c7Env).reverse.take 3 =
      [Ev.halt, Ev.print, Ev.enterKernel c7Env.entryAddr] :=
  kernel_return_prints_then_halts c7Env PixelFormatTag.kPixelBGRResv8BitPerColor
    rfl rfl rfl rfl rfl rfl rfl rfl

/-- C8: the pixel-layout mapping recognizes exactly the two
reserved-channel 8-bit-per-color orderings — RGB maps to
`kPixelRGBResv8BitPerColor` and BGR to `kPixelBGRResv8BitPerColor` — and for
every other reported layout code the mapping yields no tag and the run ends
in a halt (fatal unsupported-configuration error). -/
theorem pixel_format_mapping :
    pixelFormatToTag PixelRedGreenBlueReserved8BitPerColor =
        some PixelFormatTag.kPixelRGBResv8BitPerColor ∧
    pixelFormatToTag PixelBlueGreenRedReserved8BitPerColor =
        some PixelFormatTag.kPixelBGRResv8BitPerColor ∧
    (∀ c : Nat, c ≠ PixelRedGreenBlueReserved8BitPerColor →
      c ≠ PixelBlueGreenRedReserved8BitPerColor → pixelFormatToTag c = none) ∧
    (∀ env : BootEnv, env.openKernelOk = true → env.allocPoolOk = true →
      env.readKernelOk = true → env.allocPagesOk = true →
      env.freePoolOk = true → env.exitAccepts 0 = true →
      pixelFormatToTag env.pixelFormat = none →
      (UefiMainTrace env).getLast? = some Ev.halt) := by
  refine ⟨rfl, rfl, ?_, ?_⟩
  · intro c h0 h1
    unfold pixelFormatToTag
    rw [if_neg h0, if_neg h1]
  · intro env h1 h2 h3 h4 h5 hx0 hpf
    unfold UefiMainTrace afterExitTrace
    rw [hpf]
    simp [hx0, h1, h2, h3, h4, h5]

/-- Environment reporting the unsupported pixel format `PixelBitMask`. -/
def c8Env : BootEnv where
  gmmResult := fun _ => some 13
  exitAccepts := fun _ => true
  openKernelOk := true
  allocPoolOk := true
  readKernelOk := true
  phdrs := []
  allocPagesOk := true
  freePoolOk := true
  pixelFormat := PixelBitMask
  configTables := []
  entryAddr := 0
  kernelReturns := false

/-- Witness for `pixel_format_mapping` at the concrete unsupported layout
code `PixelBitMask`. -/
theorem pixel_format_mapping_witness :
    pixelFormatToTag PixelBitMask = none ∧
    (UefiMainTrace c8Env).getLast? = some Ev.halt :=
  ⟨pixel_format_mapping.2.2.1 PixelBitMask (by decide) (by decide),
   pixel_format_mapping.2.2.2 c8Env rfl rfl rfl rfl rfl rfl rfl⟩

end Zakuro
